import Mathlib

/-!
Verification of the pyile_manager file-organizing pipeline.

The Python sources (src/pyile_manager_backend/main.py, ollama_api.py and the
legacy src/main.py) are shallowly embedded here: strings are Lean `String`
(lists of characters), the filesystem is a list of existing file paths,
Python dicts that are iterated in insertion order become association lists,
and every fallible operation returns an `Option` (or `Except` where an
uncaught exception matters).  Character-level operations (`re.escape`,
`str.replace`, `str.strip`, `lower`, `isalnum`) are embedded over the ASCII
fragment that Lean's `Char` primitives share with Python's `str` methods.
-/

namespace Pyile

/-! ### Generic string helpers (Python semantics) -/

/-- Python's `needle in hay` substring test. -/
def containsSub (needle hay : String) : Bool :=
  hay.data.tails.any (fun t => needle.data.isPrefixOf t)

/-- Python's `str.endswith` for a single suffix. -/
def strEndsWithP (s suf : String) : Bool :=
  suf.data.isSuffixOf s.data

/-- Python's `str.startswith` for a single candidate. -/
def strStartsWithP (s pre : String) : Bool :=
  pre.data.isPrefixOf s.data

/-- Python's `str.strip()` with no argument: drop whitespace on both ends. -/
def pyStrip (s : String) : String :=
  ⟨((s.data.dropWhile Char.isWhitespace).reverse.dropWhile Char.isWhitespace).reverse⟩

/-- Python's `str.strip(chars)`: drop any of the given characters on both ends. -/
def pyStripChars (cs : List Char) (s : String) : String :=
  ⟨((s.data.dropWhile (cs.contains ·)).reverse.dropWhile (cs.contains ·)).reverse⟩

/-- Python's `str.lstrip`/`rstrip` composition is folded into the two
definitions above; slices `s[a:]` and `s[:-b]` are `List.drop`/`dropLast`. -/
def pyDrop (n : Nat) (s : String) : String := ⟨s.data.drop n⟩

/-- Python's slice `s[:-2]` (here specialized: drop the last two characters). -/
def pyDropLast2 (s : String) : String := ⟨s.data.dropLast.dropLast⟩

/-! ### `parse_url_pattern` (main.py lines 94-106)

The Python function is

```
escaped = re.escape(pattern)
regex_pattern = escaped.replace(r"\{\$var\}", r"[^/]+")
regex_pattern = escaped.replace(r"\{\$\*\}", r".*")
return re.compile(regex_pattern)
```

Note that the second assignment starts again from `escaped`, so the
`{$var}` substitution of the first assignment is discarded; the compiled
regex is the escaped literal pattern with only `{$*}` replaced by `.*`.
We embed `re.escape` (Python >= 3.7 escapes exactly the characters below),
`str.replace`, and the resulting regex as a token list: every `\c` escape
pair denotes the literal character `c` (all escaped characters are
non-alphanumeric, so no `\d`-style classes arise), `.` followed by `*` is
the `.*` wildcard, and a bare `.` matches any single non-newline character.
-/

/-- The characters `re.escape` (Python >= 3.7) prefixes with a backslash. -/
def reSpecialChars : List Char :=
  ['(', ')', '[', ']', '\x7b', '\x7d', '?', '*', '+', '-', '|', '^', '$',
   '\\', '.', '&', '~', '#', ' ', '\t', '\n', '\r', '\x0b', '\x0c']

/-- `re.escape` for Python >= 3.7. -/
def reEscape (s : String) : String :=
  ⟨s.data.flatMap (fun c => if reSpecialChars.contains c then ['\\', c] else [c])⟩

/-- Python `str.replace(needle, rep)` on character lists: leftmost,
non-overlapping, all occurrences.  Structural recursion on a fuel of
`s.length`, which suffices because every step consumes at least one input
character (a match consumes `needle.length ≥ 1` of them). -/
def strReplaceFuel (needle rep : List Char) : Nat → List Char → List Char
  | 0, s => s
  | fuel + 1, s =>
    match s with
    | [] => []
    | c :: rest =>
      if needle.isPrefixOf (c :: rest) && !needle.isEmpty then
        rep ++ strReplaceFuel needle rep fuel ((c :: rest).drop needle.length)
      else c :: strReplaceFuel needle rep fuel rest

/-- Python `str.replace` entered with enough fuel. -/
def strReplaceL (needle rep s : List Char) : List Char :=
  strReplaceFuel needle rep s.length s

/-- Python `str.split(sep)` for a non-empty separator: leftmost,
non-overlapping; `acc` holds the current piece reversed.  Fuel as above. -/
def pySplitFuel (sep : List Char) : Nat → List Char → List Char → List String
  | 0, s, acc => [⟨acc.reverse ++ s⟩]
  | fuel + 1, s, acc =>
    match s with
    | [] => [⟨acc.reverse⟩]
    | c :: rest =>
      if sep.isPrefixOf (c :: rest) && !sep.isEmpty then
        (⟨acc.reverse⟩ : String) :: pySplitFuel sep fuel ((c :: rest).drop sep.length) []
      else pySplitFuel sep fuel rest (c :: acc)

/-- Python `str.split(sep)` entered with enough fuel. -/
def pySplit (s sep : String) : List String :=
  pySplitFuel sep.data s.data.length s.data []

/-- Tokens of the compiled routing regex. -/
inductive RTok where
  | lit (c : Char)
  | dotStar
  | dot
deriving DecidableEq

/-- Parse the post-replacement regex text into tokens (see the comment on
`parse_url_pattern`). -/
def parseRegexToks : List Char → List RTok
  | [] => []
  | '\\' :: c :: rest => .lit c :: parseRegexToks rest
  | '.' :: '*' :: rest => .dotStar :: parseRegexToks rest
  | '.' :: rest => .dot :: parseRegexToks rest
  | c :: rest => .lit c :: parseRegexToks rest

/-- Does the token list match some prefix of the character list?
`dotStar` consumes any number of non-newline characters (Python's `.`
with DOTALL off), `dot` exactly one.  Structural recursion on a fuel of
`ts.length + s.length + 1`: every recursive call shrinks `ts` or `s`. -/
def matchToksFuel : Nat → List RTok → List Char → Bool
  | 0, _, _ => false
  | fuel + 1, ts, s =>
    match ts, s with
    | [], _ => true
    | .lit c :: ts', d :: rest => c == d && matchToksFuel fuel ts' rest
    | .lit _ :: _, [] => false
    | .dot :: ts', d :: rest => d != '\n' && matchToksFuel fuel ts' rest
    | .dot :: _, [] => false
    | .dotStar :: ts', [] => matchToksFuel fuel ts' []
    | .dotStar :: ts', d :: rest =>
      matchToksFuel fuel ts' (d :: rest) ||
        (d != '\n' && matchToksFuel fuel (.dotStar :: ts') rest)

/-- The token matcher entered with enough fuel. -/
def matchToks (ts : List RTok) (s : List Char) : Bool :=
  matchToksFuel (ts.length + s.length + 1) ts s

/-- `re.search` as a Boolean: the token list matches starting at some
position of the string (the empty position at the end included). -/
def regexSearch (ts : List RTok) (s : String) : Bool :=
  s.data.tails.any (fun suf => matchToks ts suf)

/-- `parse_url_pattern` (main.py lines 94-106), as compiled regex tokens.
Line 104's `{$var}` substitution is dead code (line 105 rebinds the result
from `escaped`), so only the `{$*}` marker survives compilation. -/
def parse_url_pattern (pattern : String) : List RTok :=
  parseRegexToks (strReplaceL ("\\\x7b\\$\\*\\\x7d").data (".*").data (reEscape pattern).data)

/-! ### `match_url_to_destination` (main.py lines 109-124) -/

/-- The per-rule pattern test of the loop body of `match_url_to_destination`:
regex search when the pattern holds the marker prefix `{$`, plain substring
containment otherwise. -/
def ruleTest (pattern url : String) : Bool :=
  if containsSub "\x7b$" pattern then regexSearch (parse_url_pattern pattern) url
  else containsSub pattern url

/-- `match_url_to_destination` (main.py lines 109-124).  The Python dict is
iterated in insertion order, embedded as an association list. -/
def match_url_to_destination (url : String) (url_schemas : List (String × String)) :
    Option String :=
  match url_schemas with
  | [] => none
  | (pattern, destination) :: rest =>
    if containsSub "\x7b$" pattern then
      if regexSearch (parse_url_pattern pattern) url then some destination
      else match_url_to_destination url rest
    else
      if containsSub pattern url then some destination
      else match_url_to_destination url rest

/-! ### `sanitize_filename` (ollama_api.py lines 194-216)

Python's `str.isalnum` and `str.lower` are Unicode-aware; the embedding
covers their ASCII fragment (`[A-Za-z0-9]` and `A-Z → a-z`), which is what
Lean's `Char` primitives share with them and what AI-proposed filenames
consist of. -/

/-- ASCII fragment of Python's `c.isalnum()`. -/
def pyIsAlnum (c : Char) : Bool :=
  (65 ≤ c.toNat && c.toNat ≤ 90) || (97 ≤ c.toNat && c.toNat ≤ 122) ||
    (48 ≤ c.toNat && c.toNat ≤ 57)

/-- ASCII fragment of Python's `c.lower()`. -/
def pyToLower (c : Char) : Char :=
  if 65 ≤ c.toNat ∧ c.toNat ≤ 90 then Char.ofNat (c.toNat + 32) else c

/-- Lowercase a whole string. -/
def strLower (s : String) : String := ⟨s.data.map pyToLower⟩

/-- The modeled fragment of Python's Unicode `str.isalnum`: all of ASCII,
plus the dotted capital I `'İ'` (U+0130), which Python counts alphanumeric
and which is the one character in Unicode whose `str.lower` expands — to
`'i'` followed by the combining dot above U+0307 (category Mn, not
alphanumeric).  Other non-ASCII characters lie outside the modeled
fragment and are treated as non-alphanumeric. -/
def pyIsAlnumU (c : Char) : Bool := pyIsAlnum c || c == '\u0130'

/-- Python's `str.lower` at one character, string-valued: `'İ'` (U+0130)
lowers to `'i'` plus U+0307; every other modeled character lowers to the
single character `pyToLower` gives. -/
def pyLowerChar (c : Char) : List Char :=
  if c == '\u0130' then ['i', '\u0307'] else [pyToLower c]

/-- Python's `str.lower` over a whole string. -/
def pyLower (l : List Char) : List Char := l.flatMap pyLowerChar

/-- The per-character step of line 200: keep alphanumerics and underscores,
replace everything else with an underscore. -/
def pyCharKeep (c : Char) : Char := if pyIsAlnumU c || c == '_' then c else '_'

/-- One pass of `sanitized.replace("__", "_")`: leftmost, non-overlapping. -/
def replaceUU : List Char → List Char
  | [] => []
  | [c] => [c]
  | c1 :: c2 :: rest =>
    if c1 == '_' && c2 == '_' then '_' :: replaceUU rest
    else c1 :: replaceUU (c2 :: rest)

/-- Python's `"__" in sanitized`. -/
def hasUU : List Char → Bool
  | c1 :: c2 :: rest => (c1 == '_' && c2 == '_') || hasUU (c2 :: rest)
  | _ => false

/-- The `while "__" in sanitized` loop of lines 203-204, run on a fuel of
`s.length` iterations.  Each taken iteration strictly shortens the list, so
the fuel never runs out; `collapseLoop_eq` below proves the definition
satisfies the loop's recurrence exactly. -/
def collapseFuel : Nat → List Char → List Char
  | 0, s => s
  | n + 1, s => if hasUU s then collapseFuel n (replaceUU s) else s

/-- The collapse loop entered with enough fuel. -/
def collapseLoop (s : List Char) : List Char := collapseFuel s.length s

/-- Line 207, `sanitized.strip("_")`: drop underscores at both ends. -/
def saniStrip (l : List Char) : List Char :=
  ((l.dropWhile (· == '_')).reverse.dropWhile (· == '_')).reverse

/-- Lines 213-214: truncate to 80 characters and `rstrip("-_")` the cut. -/
def saniTrunc (l : List Char) : List Char :=
  if l.length > 80 then
    ((l.take 80).reverse.dropWhile (fun c => c == '-' || c == '_')).reverse
  else l

/-- `sanitize_filename` (ollama_api.py lines 194-216): replace non-word
characters by underscores, collapse runs of underscores, strip edge
underscores, lowercase, truncate. -/
def sanitize_filename (name : String) : String :=
  ⟨saniTrunc (pyLower (saniStrip (collapseLoop (name.data.map pyCharKeep))))⟩

/-- A character `sanitize_filename` may emit: alphanumeric or underscore. -/
def goodChar (c : Char) : Bool := pyIsAlnum c || c == '_'

/-- The invariants `sanitize_filename` output satisfies: every character is
alphanumeric-or-underscore and fixed by lowercasing, no two adjacent
underscores, no underscore at either end, at most 80 characters. -/
def Sane (y : List Char) : Prop :=
  (∀ c ∈ y, goodChar c = true ∧ pyToLower c = c) ∧
  hasUU y = false ∧
  (∀ c, y.head? = some c → c ≠ '_') ∧
  (∀ c, y.getLast? = some c → c ≠ '_') ∧
  y.length ≤ 80

/-! ### Path arithmetic (`pathlib.Path` / `os.path` on normalized paths) -/

/-- `os.path.basename` / `Path(p).name`: the part after the last slash. -/
def pathBasename (p : String) : String :=
  ⟨(p.data.reverse.takeWhile (· != '/')).reverse⟩

/-- `str(Path(p).parent)` for a normalized path (no trailing slash). -/
def pathParent (p : String) : String :=
  let base := (p.data.reverse.takeWhile (· != '/')).reverse
  let pre := p.data.take (p.data.length - base.length)
  if pre = [] then "." else if pre = ['/'] then "/" else ⟨pre.dropLast⟩

/-- `str(parent / filename)` where `parent` came from `pathParent`. -/
def pathJoin (dir filename : String) : String :=
  if dir = "." then filename
  else if dir = "/" then "/" ++ filename
  else dir ++ "/" ++ filename

/-- `str(Path(destination) / filename)` for a configured destination
directory (tolerates trailing slashes, which `Path` normalizes away). -/
def pathJoinDir (destination filename : String) : String :=
  let d := (destination.data.reverse.dropWhile (· == '/')).reverse
  if d = [] then (if destination.data ≠ [] then "/" ++ filename else filename)
  else (⟨d⟩ : String) ++ "/" ++ filename

/-- `Path(p).suffix`: the final component's extension including the dot;
empty when the last dot is the component's first character or is missing. -/
def pathSuffix (p : String) : String :=
  let name := (p.data.reverse.takeWhile (· != '/')).reverse
  let afterLen := (name.reverse.takeWhile (· != '.')).length
  if afterLen = name.length then ""
  else
    let i := name.length - afterLen - 1
    if 0 < i ∧ i < name.length - 1 then ⟨name.drop i⟩ else ""

/-! ### `urlparse(...).netloc` and `get_domain_name` (main.py lines 152-159) -/

/-- A character allowed in a URL scheme (`urllib.parse.scheme_chars`). -/
def isSchemeChar (c : Char) : Bool :=
  pyIsAlnum c || c == '+' || c == '-' || c == '.'

/-- ASCII letter test for the scheme's first character. -/
def isAsciiLetter (c : Char) : Bool :=
  (65 ≤ c.toNat && c.toNat ≤ 90) || (97 ≤ c.toNat && c.toNat ≤ 122)

/-- `urllib.parse.urlparse(url).netloc`: strip a well-formed `scheme:`,
then read the authority after `//` up to the first `/`, `?` or `#`; empty
when the remainder does not start with `//`. -/
def urlparseNetloc (url : String) : String :=
  let l := url.data
  let rest :=
    match l.findIdx? (· == ':') with
    | some i =>
      if 0 < i ∧ (l.take i).all isSchemeChar ∧ (l.headD ' ' |> isAsciiLetter) then
        l.drop (i + 1)
      else l
    | none => l
  match rest with
  | '/' :: '/' :: r => ⟨r.takeWhile (fun c => c != '/' && c != '?' && c != '#')⟩
  | _ => ""

/-- `get_domain_name` (main.py lines 152-159): the `loc`-th dot-separated
label of the host, or the whole host when there are not that many labels. -/
def get_domain_name (url : String) (loc : Nat) : String :=
  let domain_subdomain := urlparseNetloc url
  let parts := pySplit domain_subdomain "."
  if loc < parts.length then parts.getD loc domain_subdomain else domain_subdomain

/-- The fallback label as §4.2 of the spec words it: the second-level
domain label of the origin's host, i.e. the label immediately to the left
of the top-level domain (`docs.example.com` → `example`, and likewise
`example.com` → `example`).  Stated from the spec's words for comparison
with `get_domain_name`, which is what the source computes. -/
def sldLabelSpec (url : String) : String :=
  let host := urlparseNetloc url
  let parts := pySplit host "."
  if parts.length ≥ 2 then parts.getD (parts.length - 2) host else host

/-! ### Filesystem model and the event handler (main.py lines 167-315)

The filesystem is the list of paths of existing regular files.  Observable
actions of one notification are recorded as a trace of `FsEv` events;
structured notifications broadcast to observers are `Msg` values.  The
`mdls` subprocess and the AI naming backend are oracles passed as
arguments (`metadata`, `aiName`), `none` standing for a falsy Python
result. -/

/-- Observable steps of handling one creation notification. -/
inductive FsEv where
  | provenanceLookup (path : String)
  | fileMove (src dst : String)
  | duplicateRemove (path : String)
  | suppressConsult (path : String)
  | aiRenameAttempt (path : String)
deriving DecidableEq

/-- Notifications broadcast to observers. -/
inductive Msg where
  | fileMoved (filename src dst destination : String)
  | fileRenamed (oldName newName dir fullPath : String)
deriving DecidableEq

/-- The destination `_sort_file_by_url` (main.py lines 206-254) settles on:
the rule match first, then the domain-name fallback loop of lines 216-221. -/
def destinationFor (rules : List (String × String)) (source_url : String) :
    Option String :=
  match match_url_to_destination source_url rules with
  | some d => some d
  | none =>
    (rules.find? (fun pr =>
      containsSub (strLower (get_domain_name source_url 1)) (strLower pr.1))).map (·.2)

/-- Result of `_sort_file_by_url`. -/
structure SortResult where
  fs : List String
  newPath : Option String
  events : List FsEv
  msgs : List Msg
deriving DecidableEq

/-- `NewFileHandler._sort_file_by_url` (main.py lines 206-254).  `mkdir` is
invisible in a file-set model; `dest_path.is_file()` is membership in the
file set; `os.remove` and `shutil.move` erase and insert paths. -/
def sort_file_by_url (fs : List String) (removeDuplicate : Bool)
    (rules : List (String × String)) (src_path filename source_url : String) :
    SortResult :=
  match destinationFor rules source_url with
  | none => ⟨fs, none, [], []⟩
  | some destination =>
    let dest_path := pathJoinDir destination filename
    if dest_path ∈ fs then
      if removeDuplicate then ⟨fs.erase src_path, none, [.duplicateRemove src_path], []⟩
      else ⟨fs, none, [], []⟩
    else
      ⟨(fs.erase src_path).insert dest_path, some dest_path,
        [.fileMove src_path dest_path],
        [Msg.fileMoved filename src_path dest_path destination]⟩

/-- Result of `rename_file_on_disk`.  `overwrote` records whether
`path.rename` replaced an already-existing file (POSIX rename replaces its
target silently). -/
structure RenameResult where
  fs : List String
  newPath : Option String
  overwrote : Bool
deriving DecidableEq

/-- `rename_file_on_disk` (ollama_api.py lines 219-243).  `ts` is the
`datetime.now().strftime("%Y%m%d-%H%M%S")` clock oracle.  A missing source
makes `path.rename` raise, caught by the `except` branch which returns
`None` with no filesystem change. -/
def rename_file_on_disk (fs : List String) (file_path new_name ts : String) :
    RenameResult :=
  let extension := pathSuffix file_path
  let parent := pathParent file_path
  let target1 := pathJoin parent (new_name ++ extension)
  if file_path ∈ fs then
    if target1 ∈ fs then
      let target2 := pathJoin parent (new_name ++ "-" ++ ts ++ extension)
      ⟨(fs.erase file_path).insert target2, some target2,
        (fs.erase file_path).contains target2⟩
    else
      ⟨(fs.erase file_path).insert target1, some target1, false⟩
  else ⟨fs, none, false⟩

/-- `NewFileHandler._should_rename_file` (main.py lines 256-280): returns
the decision together with the updated suppression set (`recently_renamed`,
whose entry for `file_path` is discarded on a hit). -/
def should_rename_file (recently : List String) (renameByAI : Bool)
    (renameDirs : List String) (file_path : String) : Bool × List String :=
  if file_path ∈ recently then (false, recently.erase file_path)
  else if !renameByAI then (false, recently)
  else (renameDirs.any (fun d => strStartsWithP (pathParent file_path) d), recently)

/-- The eligibility decision of lines 265-280 alone (no suppression set):
renaming enabled and the containing directory extends a configured rename
directory as a string prefix. -/
def renameDecision (renameByAI : Bool) (renameDirs : List String)
    (file_path : String) : Bool :=
  renameByAI && renameDirs.any (fun d => strStartsWithP (pathParent file_path) d)

/-- Handler state shared by the watcher and the control surface. -/
structure HState where
  fs : List String
  recently : List String
  msgs : List Msg
deriving DecidableEq

/-- `NewFileHandler._rename_file_with_ai` (main.py lines 282-304), with the
AI call `rename_file_with_ai` abstracted as the `aiName` oracle.  On a
successful on-disk rename it registers the pre-rename path in
`recently_renamed` and broadcasts a `file_renamed` notification. -/
def rename_file_with_ai (st : HState) (aiName : Option String)
    (ts file_path : String) : HState :=
  match aiName with
  | none => st
  | some new_name =>
    let r := rename_file_on_disk st.fs file_path new_name ts
    match r.newPath with
    | none => { st with fs := r.fs }
    | some new_path =>
      { fs := r.fs,
        recently := st.recently.insert file_path,
        msgs := st.msgs ++
          [Msg.fileRenamed (pathBasename file_path) (pathBasename new_path)
            (pathParent new_path) new_path] }

/-- Response of the manual rename endpoint. -/
inductive EndpointResult where
  | notFound
  | ok (old_name : String) (new_name : Option String)
  | failed (old_name : String)
deriving DecidableEq

/-- `rename_file_endpoint` (main.py lines 501-526): the `POST /api/rename`
control surface.  It renames on disk but touches neither the suppression
set nor the broadcast channel. -/
def rename_file_endpoint (st : HState) (aiName : Option String)
    (ts file_path : String) : HState × EndpointResult :=
  if file_path ∈ st.fs then
    match aiName with
    | some new_name =>
      let r := rename_file_on_disk st.fs file_path new_name ts
      ({ st with fs := r.fs }, .ok (pathBasename file_path) (r.newPath.map pathBasename))
    | none => (st, .failed (pathBasename file_path))
  else (st, .notFound)

/-- Configuration fields `NewFileHandler.on_created` reads. -/
structure HandlerConfig where
  removeDuplicate : Bool
  renameByAI : Bool
  urlRules : List (String × String)
  renameDirs : List String
deriving DecidableEq

/-- `NewFileHandler.on_created` (main.py lines 175-204) at trace
granularity: returns the filesystem, the suppression set, and the ordered
trace of observable steps.  The AI rename itself is marked by a final
`aiRenameAttempt` event; the `time.sleep` settling pauses have no
observable effect in this model. -/
def on_created (cfg : HandlerConfig) (fs recently : List String)
    (isDirectory : Bool) (src_path : String) (metadata : Option String) :
    List String × List String × List FsEv :=
  if isDirectory then (fs, recently, [])
  else
    let filename := pathBasename src_path
    if strEndsWithP filename ".crdownload" || strEndsWithP filename ".tmp" ||
        strEndsWithP filename ".part" then
      (fs, recently, [])
    else
      let step :=
        match metadata with
        | none => (fs, src_path, [FsEv.provenanceLookup src_path])
        | some source_url =>
          let r := sort_file_by_url fs cfg.removeDuplicate cfg.urlRules
            src_path filename source_url
          (r.fs, r.newPath.getD src_path, FsEv.provenanceLookup src_path :: r.events)
      let consult := should_rename_file recently cfg.renameByAI cfg.renameDirs step.2.1
      (step.1, consult.2,
        step.2.2 ++ [FsEv.suppressConsult step.2.1] ++
          (if consult.1 then [FsEv.aiRenameAttempt step.2.1] else []))

/-! ### `get_metadata_mdls` (backend main.py lines 132-149 and legacy
src/main.py lines 21-35)

The `subprocess.run(["mdls", path], ...)` call is abstracted as the
`mdlsOutput` oracle: `none` when the subprocess layer failed (the caught
`CalledProcessError` / `FileNotFoundError` branches), `some stdout`
otherwise. -/

/-- `get_metadata_mdls` of src/pyile_manager_backend/main.py (lines
132-149): guarded on both the attribute split and the URL count. -/
def get_metadata_mdls (mdlsOutput : Option String) : Option String :=
  match mdlsOutput with
  | none => none
  | some stdout =>
    let result_lines := pySplit (pyStrip stdout) "kMDItemWhereFroms"
    if result_lines.length < 2 then none
    else
      let s1 := pyStrip (result_lines.getD 1 "")
      let result_data := pyStrip (pyDrop 1 (pyStrip (pyDropLast2 (pyDrop 1 s1))))
      let urls := pySplit result_data ",\n"
      if urls.length ≥ 2 then some (pyStripChars ['"'] (pyStrip (urls.getD 1 "")))
      else none

/-- `get_metadata_mdls` of the legacy src/main.py (lines 21-35): the
`result.split(",\n")[1]` subscript is unguarded, so a single-entry
where-from list raises `IndexError` (the `Except.error` case). -/
def get_metadata_mdls_legacy (mdlsOutput : Option String) :
    Except String (Option String) :=
  match mdlsOutput with
  | none => .ok none
  | some stdout =>
    let result_lines := pySplit (pyStrip stdout) "kMDItemWhereFroms"
    if result_lines.length < 2 then .ok none
    else
      let s1 := pyStrip (result_lines.getD 1 "")
      let result_data := pyStrip (pyDrop 1 (pyStrip (pyDropLast2 (pyDrop 1 s1))))
      let urls := pySplit result_data ",\n"
      if 1 < urls.length then
        .ok (some (pyStripChars ['"'] (pyStrip (urls.getD 1 ""))))
      else .error "IndexError: list index out of range"

/-- The layout `mdls` prints for the `kMDItemWhereFroms` attribute (per the
code's comment and the macOS tool: a parenthesized, comma-and-newline
separated list of quoted strings), with `preText` standing for the
attributes printed before it. -/
def mdlsWhereFroms (preText : String) (urls : List String) : String :=
  preText ++ "kMDItemWhereFroms              = (\n" ++
    String.join (List.intersperse ",\n" (urls.map (fun u => "    \"" ++ u ++ "\""))) ++ "\n)"

/-! ## Theorems -/

/-- The matcher loop of `match_url_to_destination` is first-match-wins over
the per-rule test `ruleTest`. -/
theorem match_url_eq_find (url : String) (rules : List (String × String)) :
    match_url_to_destination url rules =
      (rules.find? (fun pr => ruleTest pr.1 url)).map Prod.snd := by
  induction rules with
  | nil => rfl
  | cons hd tl ih =>
    obtain ⟨p, d⟩ := hd
    by_cases h1 : containsSub "\x7b$" p = true
    · by_cases h2 : regexSearch (parse_url_pattern p) url = true
      · rw [match_url_to_destination, if_pos h1, if_pos h2,
          List.find?_cons_of_pos _ (by simp [ruleTest, h1, h2])]
        rfl
      · rw [match_url_to_destination, if_pos h1, if_neg h2,
          List.find?_cons_of_neg _ (by simp [ruleTest, h1, h2]), ih]
    · by_cases h3 : containsSub p url = true
      · rw [match_url_to_destination, if_neg h1, if_pos h3,
          List.find?_cons_of_pos _ (by simp [ruleTest, h1, h3])]
        rfl
      · rw [match_url_to_destination, if_neg h1, if_neg h3,
          List.find?_cons_of_neg _ (by simp [ruleTest, h1, h3]), ih]

/-- C1: for every ordered rule set and origin, `match_url_to_destination`
returns the destination of the earliest rule whose pattern test (regex
search for patterns holding a variable marker, substring containment
otherwise) succeeds, and `none` when no test succeeds; concretely, with two
rules whose patterns both match the origin but map to different
destinations, the one declared earlier wins, in either declaration order. -/
theorem claim_C1 :
    (∀ url rules, match_url_to_destination url rules =
      (rules.find? (fun pr => ruleTest pr.1 url)).map Prod.snd) ∧
    ruleTest "files.net" "https://files.net/doc" = true ∧
    ruleTest "files" "https://files.net/doc" = true ∧
    match_url_to_destination "https://files.net/doc"
      [("files.net", "/A"), ("files", "/B")] = some "/A" ∧
    match_url_to_destination "https://files.net/doc"
      [("files", "/B"), ("files.net", "/A")] = some "/B" ∧
    match_url_to_destination "https://elsewhere.org/doc"
      [("files.net", "/A"), ("files", "/B")] = none :=
  ⟨match_url_eq_find, by decide, by decide, by decide, by decide, by decide⟩

/-- C2 (code bug): the docstring of `parse_url_pattern` promises that the
pattern `example.com/course/{$var}` matches `example.com/course/python`,
but line 105 rebinds `regex_pattern` from `escaped`, discarding line 104's
`{$var}` substitution; the compiled regex therefore demands the literal
marker text, the example origin does not match, and
`match_url_to_destination` returns no destination for it. -/
theorem claim_C2_bug :
    match_url_to_destination "https://example.com/course/python"
      [("example.com/course/\x7b$var\x7d", "/courses")] = none ∧
    match_url_to_destination "https://example.com/course/"
      [("example.com/course/\x7b$var\x7d", "/courses")] = none ∧
    containsSub "\x7b$" "example.com/course/\x7b$var\x7d" = true ∧
    regexSearch (parse_url_pattern "example.com/course/\x7b$var\x7d")
      "https://example.com/course/python" = false ∧
    regexSearch (parse_url_pattern "example.com/course/\x7b$var\x7d")
      "see example.com/course/\x7b$var\x7d here" = true :=
  ⟨by decide, by decide, by decide, by decide, by decide⟩

set_option maxRecDepth 8192

/-- C8 (code bug in the legacy copy): the backend resolver picks the second
where-from entry and returns `none` on a missing attribute, a short list or
a failed subprocess; the legacy `src/main.py` copy, whose
`result.split(",\n")[1]` subscript is unguarded, raises `IndexError`
instead of returning absent when the list holds exactly one entry. -/
theorem claim_C8_bug :
    get_metadata_mdls_legacy
      (some (mdlsWhereFroms "" ["https://only.example.com/direct.zip"])) =
      .error "IndexError: list index out of range" ∧
    get_metadata_mdls
      (some (mdlsWhereFroms "" ["https://only.example.com/direct.zip"])) = none ∧
    get_metadata_mdls none = none ∧
    get_metadata_mdls_legacy none = .ok none ∧
    get_metadata_mdls (some "mdls printed no wherefrom attribute") = none ∧
    get_metadata_mdls
      (some (mdlsWhereFroms "kMDItemFSName = \"f.zip\"\n"
        ["https://cdn.example.com/direct.zip", "https://example.com/page"])) =
      some "https://example.com/page" ∧
    get_metadata_mdls_legacy
      (some (mdlsWhereFroms "kMDItemFSName = \"f.zip\"\n"
        ["https://cdn.example.com/direct.zip", "https://example.com/page"])) =
      .ok (some "https://example.com/page") :=
  ⟨by rfl, by decide, by decide, by rfl, by decide, by decide, by rfl⟩

/-- C10: a rename through the manual `/api/rename` endpoint changes only
the filesystem (the on-disk rename itself); the suppression set and the
broadcast list are untouched in every case, whereas the watcher-driven
rename path, on success, registers the pre-rename path in the suppression
set and broadcasts a `file_renamed` notification. -/
theorem claim_C10 (st : HState) (ai : Option String) (ts p : String) :
    ((rename_file_endpoint st ai ts p).1.recently = st.recently ∧
     (rename_file_endpoint st ai ts p).1.msgs = st.msgs) ∧
    (∀ nn, ai = some nn → p ∈ st.fs →
      (rename_file_endpoint st ai ts p).1.fs = (rename_file_on_disk st.fs p nn ts).fs) ∧
    (∀ nn np, ai = some nn → (rename_file_on_disk st.fs p nn ts).newPath = some np →
      rename_file_with_ai st ai ts p =
        { fs := (rename_file_on_disk st.fs p nn ts).fs,
          recently := st.recently.insert p,
          msgs := st.msgs ++ [Msg.fileRenamed (pathBasename p) (pathBasename np)
            (pathParent np) np] }) := by
  refine ⟨?_, ?_, ?_⟩
  · by_cases hp : p ∈ st.fs
    · cases ai <;> simp [rename_file_endpoint, hp]
    · simp [rename_file_endpoint, hp]
  · rintro nn rfl hp
    simp [rename_file_endpoint, hp]
  · rintro nn np rfl hnp
    simp [rename_file_with_ai, hnp]

/-- Witness for C10 at a concrete state: the endpoint leaves the
suppression set and broadcasts unchanged while the watcher path extends
both. -/
theorem claim_C10_witness :
    (rename_file_endpoint ⟨["/w/f.pdf"], [], []⟩ (some "nice_name")
      "20240101-120000" "/w/f.pdf").1.recently = [] ∧
    (rename_file_endpoint ⟨["/w/f.pdf"], [], []⟩ (some "nice_name")
      "20240101-120000" "/w/f.pdf").1.msgs = [] ∧
    rename_file_with_ai ⟨["/w/f.pdf"], [], []⟩ (some "nice_name")
      "20240101-120000" "/w/f.pdf" =
      { fs := (rename_file_on_disk ["/w/f.pdf"] "/w/f.pdf" "nice_name"
          "20240101-120000").fs,
        recently := List.insert "/w/f.pdf" [],
        msgs := [] ++ [Msg.fileRenamed (pathBasename "/w/f.pdf")
          (pathBasename "/w/nice_name.pdf") (pathParent "/w/nice_name.pdf")
          "/w/nice_name.pdf"] } :=
  ⟨(claim_C10 ⟨["/w/f.pdf"], [], []⟩ (some "nice_name") "20240101-120000" "/w/f.pdf").1.1,
   (claim_C10 ⟨["/w/f.pdf"], [], []⟩ (some "nice_name") "20240101-120000" "/w/f.pdf").1.2,
   (claim_C10 ⟨["/w/f.pdf"], [], []⟩ (some "nice_name") "20240101-120000" "/w/f.pdf").2.2
     "nice_name" "/w/nice_name.pdf" rfl (by decide)⟩

/-- C6: a path in the suppression set is skipped exactly once: the first
consultation of `_should_rename_file` for that path answers `false` and
removes the entry, and a second consultation then behaves as the plain
eligibility decision, leaving the set unchanged. -/
theorem claim_C6 (recently : List String) (ba : Bool) (dirs : List String)
    (p : String) (hnd : recently.Nodup) (hp : p ∈ recently) :
    should_rename_file recently ba dirs p = (false, recently.erase p) ∧
    p ∉ recently.erase p ∧
    should_rename_file (recently.erase p) ba dirs p =
      (renameDecision ba dirs p, recently.erase p) := by
  have h2 : p ∉ recently.erase p := hnd.not_mem_erase
  refine ⟨by simp [should_rename_file, hp], h2, ?_⟩
  cases ba <;> simp [should_rename_file, h2, renameDecision]

/-- Witness for C6 at a concrete suppression set. -/
theorem claim_C6_witness :
    should_rename_file ["/w/f.pdf"] true ["/w"] "/w/f.pdf" =
      (false, (["/w/f.pdf"] : List String).erase "/w/f.pdf") ∧
    "/w/f.pdf" ∉ (["/w/f.pdf"] : List String).erase "/w/f.pdf" ∧
    should_rename_file ((["/w/f.pdf"] : List String).erase "/w/f.pdf") true
      ["/w"] "/w/f.pdf" =
      (renameDecision true ["/w"] "/w/f.pdf",
        (["/w/f.pdf"] : List String).erase "/w/f.pdf") :=
  claim_C6 ["/w/f.pdf"] true ["/w"] "/w/f.pdf" (by decide) (by decide)

/-- C3: placing a file whose computed destination path already holds an
existing file returns no new path; with `remove_duplicate` on, the source
is deleted, otherwise the filesystem is untouched; the pre-existing
destination file survives (when it is not the source file itself), and no
error is possible (the operation is a total function of the state). -/
theorem claim_C3 (fs : List String) (rd : Bool) (rules : List (String × String))
    (src filename url dest : String)
    (hdest : destinationFor rules url = some dest)
    (hdup : pathJoinDir dest filename ∈ fs) :
    (sort_file_by_url fs rd rules src filename url).newPath = none ∧
    (sort_file_by_url fs rd rules src filename url).fs =
      (if rd then fs.erase src else fs) ∧
    (sort_file_by_url fs rd rules src filename url).msgs = [] ∧
    (rd = false → pathJoinDir dest filename ∈
      (sort_file_by_url fs rd rules src filename url).fs) ∧
    (rd = true → src ≠ pathJoinDir dest filename →
      pathJoinDir dest filename ∈ (sort_file_by_url fs rd rules src filename url).fs) := by
  cases rd
  · simp [sort_file_by_url, hdest, hdup]
  · have hfs : (sort_file_by_url fs true rules src filename url).fs = fs.erase src := by
      simp [sort_file_by_url, hdest, hdup]
    refine ⟨by simp [sort_file_by_url, hdest, hdup], by simp [hfs],
      by simp [sort_file_by_url, hdest, hdup], by simp, ?_⟩
    intro _ hne
    rw [hfs]
    exact (List.mem_erase_of_ne (fun h => hne h.symm)).mpr hdup

/-- Witness for C3 at a concrete duplicate placement (removal enabled). -/
theorem claim_C3_witness :
    destinationFor [("b.com", "/dest")] "https://b.com/x" = some "/dest" ∧
    pathJoinDir "/dest" "f.pdf" ∈ (["/w/f.pdf", "/dest/f.pdf"] : List String) ∧
    (sort_file_by_url ["/w/f.pdf", "/dest/f.pdf"] true [("b.com", "/dest")]
      "/w/f.pdf" "f.pdf" "https://b.com/x").newPath = none ∧
    (sort_file_by_url ["/w/f.pdf", "/dest/f.pdf"] true [("b.com", "/dest")]
      "/w/f.pdf" "f.pdf" "https://b.com/x").fs =
      (["/w/f.pdf", "/dest/f.pdf"] : List String).erase "/w/f.pdf" :=
  ⟨by decide, by decide,
   (claim_C3 ["/w/f.pdf", "/dest/f.pdf"] true [("b.com", "/dest")] "/w/f.pdf"
     "f.pdf" "https://b.com/x" "/dest" (by decide) (by decide)).1,
   by
    have h := (claim_C3 ["/w/f.pdf", "/dest/f.pdf"] true [("b.com", "/dest")]
      "/w/f.pdf" "f.pdf" "https://b.com/x" "/dest" (by decide) (by decide)).2.1
    simpa using h⟩

/-- C9 counterexample: for the host `example.com` the second-level domain
label is `example`, and a fallback on it would select the rule whose
pattern is `example archive`; the code instead takes the second dot-label
from the left (`com` here, via `get_domain_name` with `loc = 1`), finds no
rule containing it, and leaves the file in place. -/
theorem claim_C9_counterexample :
    match_url_to_destination "https://example.com/files/a.zip"
      [("example archive", "/dest")] = none ∧
    sldLabelSpec "https://example.com/files/a.zip" = "example" ∧
    (([("example archive", "/dest")] : List (String × String)).find? (fun pr =>
      containsSub (strLower (sldLabelSpec "https://example.com/files/a.zip"))
        (strLower pr.1))).map Prod.snd = some "/dest" ∧
    get_domain_name "https://example.com/files/a.zip" 1 = "com" ∧
    destinationFor [("example archive", "/dest")]
      "https://example.com/files/a.zip" = none ∧
    sort_file_by_url ["/w/a.zip"] true [("example archive", "/dest")]
      "/w/a.zip" "a.zip" "https://example.com/files/a.zip" =
      ⟨["/w/a.zip"], none, [], []⟩ :=
  ⟨by decide, by decide, by decide, by decide, by decide, by decide⟩

/-- C9 amended: for an origin matched by no rule, the fallback extracts the
label at index 1 of the dot-split host — the second label from the left,
the whole host if it has fewer than two labels (`docs.example.com` →
`example`, but `example.com` → `com`) — and selects the destination of the
first rule whose pattern contains that label case-insensitively; when no
pattern does, routing yields absent and the filesystem is untouched. -/
theorem claim_C9_amended (fs : List String) (rd : Bool)
    (rules : List (String × String)) (src filename url : String)
    (hnomatch : match_url_to_destination url rules = none) :
    destinationFor rules url =
      (rules.find? (fun pr =>
        containsSub (strLower (get_domain_name url 1)) (strLower pr.1))).map (·.2) ∧
    ((rules.find? (fun pr =>
        containsSub (strLower (get_domain_name url 1)) (strLower pr.1))) = none →
      sort_file_by_url fs rd rules src filename url = ⟨fs, none, [], []⟩) ∧
    get_domain_name "https://docs.example.com/a" 1 = "example" := by
  refine ⟨by simp [destinationFor, hnomatch], ?_, by decide⟩
  intro hfb
  simp [sort_file_by_url, destinationFor, hnomatch, hfb]

/-- Witness for C9 amended at a concrete unmatched origin. -/
theorem claim_C9_amended_witness :
    match_url_to_destination "https://docs.example.com/a" [("zzz", "/X")] = none ∧
    destinationFor [("zzz", "/X")] "https://docs.example.com/a" =
      (([("zzz", "/X")] : List (String × String)).find? (fun pr =>
        containsSub (strLower (get_domain_name "https://docs.example.com/a" 1))
          (strLower pr.1))).map (·.2) ∧
    sort_file_by_url ["/w/a.zip"] true [("zzz", "/X")] "/w/a.zip" "a.zip"
      "https://docs.example.com/a" = ⟨["/w/a.zip"], none, [], []⟩ :=
  ⟨by decide,
   (claim_C9_amended ["/w/a.zip"] true [("zzz", "/X")] "/w/a.zip" "a.zip"
     "https://docs.example.com/a" (by decide)).1,
   (claim_C9_amended ["/w/a.zip"] true [("zzz", "/X")] "/w/a.zip" "a.zip"
     "https://docs.example.com/a" (by decide)).2.1 (by decide)⟩

/-- C5 counterexample: `rename_file_on_disk` checks only the plain target
for existence; when the timestamped fallback name already exists too,
`path.rename` replaces that file silently (three files become two). -/
theorem claim_C5_counterexample :
    (rename_file_on_disk ["/d/src.txt", "/d/nn.txt", "/d/nn-20240101-120000.txt"]
      "/d/src.txt" "nn" "20240101-120000").newPath =
      some "/d/nn-20240101-120000.txt" ∧
    "/d/nn-20240101-120000.txt" ∈
      (["/d/src.txt", "/d/nn.txt", "/d/nn-20240101-120000.txt"] : List String) ∧
    (rename_file_on_disk ["/d/src.txt", "/d/nn.txt", "/d/nn-20240101-120000.txt"]
      "/d/src.txt" "nn" "20240101-120000").overwrote = true ∧
    (rename_file_on_disk ["/d/src.txt", "/d/nn.txt", "/d/nn-20240101-120000.txt"]
      "/d/src.txt" "nn" "20240101-120000").fs =
      ["/d/nn.txt", "/d/nn-20240101-120000.txt"] :=
  ⟨by decide, by decide, by decide, by decide⟩

/-- C5 amended: renaming onto an existing filename produces the
disambiguated `name-YYYYMMDD-HHMMSS.ext` (the timestamp `ts` is the
`strftime` oracle), preserving the original extension; provided no file
already exists under that timestamped name, nothing is overwritten and
every other file survives.  (The timestamped target's existence is never
checked, so a collision there is overwritten silently — see the
counterexample.) -/
theorem claim_C5_amended (fs : List String) (p nn ts : String)
    (hsrc : p ∈ fs)
    (hclash : pathJoin (pathParent p) (nn ++ pathSuffix p) ∈ fs)
    (hfree : pathJoin (pathParent p) (nn ++ "-" ++ ts ++ pathSuffix p) ∉ fs.erase p) :
    (rename_file_on_disk fs p nn ts).newPath =
      some (pathJoin (pathParent p) (nn ++ "-" ++ ts ++ pathSuffix p)) ∧
    (rename_file_on_disk fs p nn ts).overwrote = false ∧
    strEndsWithP (nn ++ "-" ++ ts ++ pathSuffix p) (pathSuffix p) = true ∧
    containsSub ts (nn ++ "-" ++ ts ++ pathSuffix p) = true ∧
    (∀ q ∈ fs, q ≠ p → q ∈ (rename_file_on_disk fs p nn ts).fs) := by
  refine ⟨by simp [rename_file_on_disk, hsrc, hclash],
    by simp [rename_file_on_disk, hsrc, hclash, hfree], ?_, ?_, ?_⟩
  · unfold strEndsWithP
    rw [List.isSuffixOf_iff_suffix]
    exact ⟨(nn ++ "-" ++ ts).data, by simp [String.data_append]⟩
  · unfold containsSub
    rw [List.any_eq_true]
    refine ⟨ts.data ++ (pathSuffix p).data, ?_, ?_⟩
    · rw [List.mem_tails]
      exact ⟨(nn ++ "-").data, by simp [String.data_append]⟩
    · rw [ List.isPrefixOf_iff_prefix]
      exact ⟨(pathSuffix p).data, rfl⟩
  · intro q hq hne
    simp only [rename_file_on_disk, if_pos hsrc, if_pos hclash]
    exact List.mem_insert_iff.mpr (Or.inr ((List.mem_erase_of_ne hne).mpr hq))

/-- Witness for C5 amended at a concrete collision. -/
theorem claim_C5_amended_witness :
    "/d/src.txt" ∈ (["/d/src.txt", "/d/nn.txt"] : List String) ∧
    pathJoin (pathParent "/d/src.txt") ("nn" ++ pathSuffix "/d/src.txt") ∈
      (["/d/src.txt", "/d/nn.txt"] : List String) ∧
    (rename_file_on_disk ["/d/src.txt", "/d/nn.txt"] "/d/src.txt" "nn"
      "20240101-120000").newPath =
      some (pathJoin (pathParent "/d/src.txt")
        ("nn" ++ "-" ++ "20240101-120000" ++ pathSuffix "/d/src.txt")) ∧
    (rename_file_on_disk ["/d/src.txt", "/d/nn.txt"] "/d/src.txt" "nn"
      "20240101-120000").overwrote = false :=
  ⟨by decide, by decide,
   (claim_C5_amended ["/d/src.txt", "/d/nn.txt"] "/d/src.txt" "nn"
     "20240101-120000" (by decide) (by decide) (by decide)).1,
   (claim_C5_amended ["/d/src.txt", "/d/nn.txt"] "/d/src.txt" "nn"
     "20240101-120000" (by decide) (by decide) (by decide)).2.1⟩

/-- The placement step emits only move or duplicate-removal events. -/
theorem sort_events_shape (fs : List String) (rd : Bool)
    (rules : List (String × String)) (src fn url : String) :
    (sort_file_by_url fs rd rules src fn url).events = [] ∨
    (sort_file_by_url fs rd rules src fn url).events = [FsEv.duplicateRemove src] ∨
    ∃ dst, (sort_file_by_url fs rd rules src fn url).events = [FsEv.fileMove src dst] := by
  rcases hdest : destinationFor rules url with _ | d
  · simp [sort_file_by_url, hdest]
  · by_cases h : pathJoinDir d fn ∈ fs
    · cases rd <;> simp [sort_file_by_url, hdest, h]
    · simp [sort_file_by_url, hdest, h]

/-- C7 counterexample: a creation notification for a path registered in the
Suppression Set still resolves provenance first; the guard is consulted
only afterwards (here the whole trace is the provenance lookup followed by
the suppression consult), so the guard is neither checked first nor does a
suppressed path escape provenance resolution. -/
theorem claim_C7_counterexample :
    ("/w/f.pdf" : String) ∈ (["/w/f.pdf"] : List String) ∧
    (on_created ⟨true, true, [], ["/w"]⟩ ["/w/f.pdf"] ["/w/f.pdf"] false
      "/w/f.pdf" (some "https://x.example.com/a")).2.2 =
      [FsEv.provenanceLookup "/w/f.pdf", FsEv.suppressConsult "/w/f.pdf"] :=
  ⟨by decide, by decide⟩

/-- C7 amended: for every non-temporary file-creation notification the
Suppression Set is consulted exactly once, but at the rename-eligibility
stage — after provenance resolution and any routing or placement, whose
events all precede the consult and never follow it; a suppressed current
path skips only the AI rename (the trace ends at the consult), while
provenance lookup and placement have already happened. -/
theorem claim_C7_amended (cfg : HandlerConfig) (fs recently : List String)
    (src : String) (metadata : Option String)
    (htmp : (strEndsWithP (pathBasename src) ".crdownload" ||
        strEndsWithP (pathBasename src) ".tmp" ||
        strEndsWithP (pathBasename src) ".part") = false) :
    ∃ pre cur,
      (on_created cfg fs recently false src metadata).2.2 =
        pre ++ FsEv.suppressConsult cur ::
          (if (should_rename_file recently cfg.renameByAI cfg.renameDirs cur).1
            then [FsEv.aiRenameAttempt cur] else []) ∧
      FsEv.provenanceLookup src ∈ pre ∧
      (∀ q, FsEv.suppressConsult q ∉ pre) ∧
      (∀ q, FsEv.aiRenameAttempt q ∉ pre) ∧
      (cur ∈ recently →
        (should_rename_file recently cfg.renameByAI cfg.renameDirs cur).1 = false) := by
  have hsup : ∀ c, c ∈ recently →
      (should_rename_file recently cfg.renameByAI cfg.renameDirs c).1 = false := by
    intro c hc
    simp [should_rename_file, hc]
  cases metadata with
  | none =>
    refine ⟨[FsEv.provenanceLookup src], src, ?_, by simp, by simp, by simp, hsup src⟩
    simp [on_created, htmp]
  | some url =>
    refine ⟨FsEv.provenanceLookup src ::
        (sort_file_by_url fs cfg.removeDuplicate cfg.urlRules src
          (pathBasename src) url).events,
      (sort_file_by_url fs cfg.removeDuplicate cfg.urlRules src
        (pathBasename src) url).newPath.getD src,
      ?_, by simp, ?_, ?_, hsup _⟩
    · simp [on_created, htmp]
    · intro q
      rcases sort_events_shape fs cfg.removeDuplicate cfg.urlRules src
        (pathBasename src) url with hev | hev | ⟨dst, hev⟩ <;> simp [hev]
    · intro q
      rcases sort_events_shape fs cfg.removeDuplicate cfg.urlRules src
        (pathBasename src) url with hev | hev | ⟨dst, hev⟩ <;> simp [hev]

/-- Witness for C7 amended at a concrete notification (suppressed path,
origin matched by no rule). -/
theorem claim_C7_amended_witness :
    (strEndsWithP (pathBasename "/w/f.pdf") ".crdownload" ||
      strEndsWithP (pathBasename "/w/f.pdf") ".tmp" ||
      strEndsWithP (pathBasename "/w/f.pdf") ".part") = false ∧
    (∃ pre cur,
      (on_created ⟨true, true, [], ["/w"]⟩ ["/w/f.pdf"] ["/w/f.pdf"] false
        "/w/f.pdf" (some "https://x.example.com/a")).2.2 =
        pre ++ FsEv.suppressConsult cur ::
          (if (should_rename_file ["/w/f.pdf"] (HandlerConfig.mk true true [] ["/w"]).renameByAI
              (HandlerConfig.mk true true [] ["/w"]).renameDirs cur).1
            then [FsEv.aiRenameAttempt cur] else []) ∧
      FsEv.provenanceLookup "/w/f.pdf" ∈ pre ∧
      (∀ q, FsEv.suppressConsult q ∉ pre) ∧
      (∀ q, FsEv.aiRenameAttempt q ∉ pre) ∧
      (cur ∈ (["/w/f.pdf"] : List String) →
        (should_rename_file ["/w/f.pdf"] (HandlerConfig.mk true true [] ["/w"]).renameByAI
          (HandlerConfig.mk true true [] ["/w"]).renameDirs cur).1 = false)) :=
  ⟨by decide,
   claim_C7_amended ⟨true, true, [], ["/w"]⟩ ["/w/f.pdf"] ["/w/f.pdf"]
     "/w/f.pdf" (some "https://x.example.com/a") (by decide)⟩

/-! ### Character-level lemmas for `sanitize_filename` -/

/-- Characters are determined by their code points. -/
theorem char_toNat_inj {a b : Char} (h : a.toNat = b.toNat) : a = b :=
  Char.ext (UInt32.toNat.inj h)

/-- Code point of the lowered image of an ASCII uppercase letter. -/
theorem ofNat_toNat_shift (n : Nat) (h1 : 65 ≤ n) (h2 : n ≤ 90) :
    (Char.ofNat (n + 32)).toNat = n + 32 := by
  interval_cases n <;> decide

/-- `pyToLower` fixes everything outside `A`-`Z`. -/
theorem pyToLower_fix (c : Char) (h : ¬(65 ≤ c.toNat ∧ c.toNat ≤ 90)) :
    pyToLower c = c := by
  simp [pyToLower, h]

/-- `pyToLower` shifts `A`-`Z` down into `a`-`z`. -/
theorem pyToLower_toNat_upper (c : Char) (h : 65 ≤ c.toNat ∧ c.toNat ≤ 90) :
    (pyToLower c).toNat = c.toNat + 32 := by
  rw [pyToLower, if_pos h]
  exact ofNat_toNat_shift c.toNat h.1 h.2

/-- Lowercasing is idempotent. -/
theorem pyToLower_idem (c : Char) : pyToLower (pyToLower c) = pyToLower c := by
  by_cases h : 65 ≤ c.toNat ∧ c.toNat ≤ 90
  · have ht := pyToLower_toNat_upper c h
    apply pyToLower_fix
    omega
  · rw [pyToLower_fix c h]
    exact pyToLower_fix c h

/-- `goodChar` in terms of code points. -/
theorem goodChar_iff (c : Char) :
    goodChar c = true ↔ (65 ≤ c.toNat ∧ c.toNat ≤ 90) ∨
      (97 ≤ c.toNat ∧ c.toNat ≤ 122) ∨ (48 ≤ c.toNat ∧ c.toNat ≤ 57) ∨
      c.toNat = 95 := by
  have h95 : c = '_' ↔ c.toNat = 95 :=
    ⟨fun h => by rw [h]; rfl, fun h => char_toNat_inj (by rw [h]; rfl)⟩
  unfold goodChar pyIsAlnum
  simp only [Bool.or_eq_true, Bool.and_eq_true, decide_eq_true_eq, beq_iff_eq]
  rw [h95]
  tauto

/-- Lowering sends good characters to good characters. -/
theorem pyToLower_good (c : Char) (h : goodChar c = true) :
    goodChar (pyToLower c) = true := by
  by_cases hu : 65 ≤ c.toNat ∧ c.toNat ≤ 90
  · have ht := pyToLower_toNat_upper c hu
    rw [goodChar_iff]
    omega
  · rw [pyToLower_fix c hu]
    exact h

/-- Lowering maps only the underscore to the underscore. -/
theorem pyToLower_eq_underscore (c : Char) : pyToLower c = '_' ↔ c = '_' := by
  by_cases hu : 65 ≤ c.toNat ∧ c.toNat ≤ 90
  · have ht := pyToLower_toNat_upper c hu
    have h95 : ('_' : Char).toNat = 95 := rfl
    constructor
    · intro h
      rw [h, h95] at ht
      exfalso
      omega
    · intro h
      rw [h, h95] at hu
      exact absurd hu (by omega)
  · rw [pyToLower_fix c hu]

/-- Boolean form of `pyToLower_eq_underscore`. -/
theorem pyToLower_beq_underscore (c : Char) :
    (pyToLower c == '_') = (c == '_') := by
  by_cases h : c = '_'
  · rw [h]
    rfl
  · have h2 : ¬ pyToLower c = '_' := fun hx => h ((pyToLower_eq_underscore c).mp hx)
    simp [h, h2]

/-- `goodChar` (ASCII alphanumerics and the underscore) excludes the
dotted capital I. -/
theorem goodChar_ne_dottedI (c : Char) (h : goodChar c = true) : c ≠ 'İ' := by
  intro he
  rw [he] at h
  exact absurd h (by decide)

/-- Away from `'İ'`, `pyCharKeep` emits only good characters. -/
theorem pyCharKeep_good (c : Char) (hne : c ≠ 'İ') :
    goodChar (pyCharKeep c) = true := by
  have hbe : (c == 'İ') = false := by simpa using hne
  unfold pyCharKeep
  by_cases h : (pyIsAlnumU c || c == '_') = true
  · rw [if_pos h]
    unfold pyIsAlnumU at h
    rw [hbe] at h
    unfold goodChar
    simpa using h
  · rw [if_neg h]
    rfl

/-- `pyCharKeep` fixes good characters. -/
theorem pyCharKeep_id (c : Char) (h : goodChar c = true) : pyCharKeep c = c := by
  unfold goodChar at h
  have h2 : (pyIsAlnumU c || c == '_') = true := by
    unfold pyIsAlnumU
    simp only [Bool.or_eq_true] at h ⊢
    tauto
  unfold pyCharKeep
  rw [if_pos h2]

/-- `pyCharKeep` emits `'İ'` only for `'İ'` itself. -/
theorem pyCharKeep_ne_dottedI (c : Char) (hne : c ≠ 'İ') :
    pyCharKeep c ≠ 'İ' := by
  unfold pyCharKeep
  by_cases h : (pyIsAlnumU c || c == '_') = true
  · rw [if_pos h]
    exact hne
  · rw [if_neg h]
    decide

/-- Away from `'İ'`, string lowering is the characterwise `pyToLower`. -/
theorem pyLower_eq_map : ∀ (l : List Char), (∀ c ∈ l, c ≠ 'İ') →
    pyLower l = l.map pyToLower
  | [], _ => rfl
  | c :: rest, h => by
    have hone : pyLowerChar c = [pyToLower c] := by
      unfold pyLowerChar
      rw [if_neg (by simpa using h c (by simp))]
    have ih := pyLower_eq_map rest (fun d hd => h d (by simp [hd]))
    unfold pyLower at ih ⊢
    rw [List.flatMap_cons, hone, ih, List.map_cons]
    rfl

/-- `saniTrunc` caps every list at 80 characters. -/
theorem saniTrunc_le (l : List Char) : (saniTrunc l).length ≤ 80 := by
  unfold saniTrunc
  by_cases h : l.length > 80
  · rw [if_pos h]
    calc ((l.take 80).reverse.dropWhile (fun c => c == '-' || c == '_')).reverse.length
        ≤ (l.take 80).reverse.length := by
          rw [List.length_reverse]
          exact (List.dropWhile_suffix _).length_le
      _ ≤ 80 := by
          rw [List.length_reverse, List.length_take]
          omega
  · rw [if_neg h]
    omega

/-- Map a pointwise-identity function over a list. -/
theorem mapIdOn {f : Char → Char} :
    ∀ (l : List Char), (∀ c ∈ l, f c = c) → l.map f = l
  | [], _ => rfl
  | c :: rest, h => by
    rw [List.map_cons, h c (by simp), mapIdOn rest (fun d hd => h d (by simp [hd]))]

/-! ### The underscore-collapse loop -/

/-- One replacement pass only reuses input characters. -/
theorem replaceUU_subset : ∀ (s : List Char), ∀ c ∈ replaceUU s, c ∈ s
  | [] => by simp [replaceUU]
  | [d] => by simp [replaceUU]
  | c1 :: c2 :: rest => by
    intro c hc
    by_cases h : (c1 == '_' && c2 == '_') = true
    · rw [replaceUU, if_pos h] at hc
      rcases List.mem_cons.mp hc with rfl | hc
      · have h1 : c1 = '_' := by
          simp only [Bool.and_eq_true, beq_iff_eq] at h
          exact h.1
        simp [h1]
      · exact List.mem_cons_of_mem _ (List.mem_cons_of_mem _ (replaceUU_subset rest c hc))
    · rw [replaceUU, if_neg h] at hc
      rcases List.mem_cons.mp hc with rfl | hc
      · simp
      · exact List.mem_cons_of_mem _ (replaceUU_subset (c2 :: rest) c hc)

/-- One replacement pass never lengthens the list. -/
theorem replaceUU_length_le : ∀ (s : List Char), (replaceUU s).length ≤ s.length
  | [] => by simp [replaceUU]
  | [d] => by simp [replaceUU]
  | c1 :: c2 :: rest => by
    have ih1 := replaceUU_length_le rest
    have ih2 := replaceUU_length_le (c2 :: rest)
    by_cases h : (c1 == '_' && c2 == '_') = true
    · rw [replaceUU, if_pos h]
      simp only [List.length_cons] at ih2 ⊢
      omega
    · rw [replaceUU, if_neg h]
      simp only [List.length_cons] at ih2 ⊢
      omega

/-- A pass over a list still holding `__` strictly shortens it. -/
theorem replaceUU_length_lt : ∀ (s : List Char), hasUU s = true →
    (replaceUU s).length < s.length
  | [] => by simp [hasUU]
  | [d] => by simp [hasUU]
  | c1 :: c2 :: rest => by
    intro h
    by_cases hx : (c1 == '_' && c2 == '_') = true
    · have h1 := replaceUU_length_le rest
      rw [replaceUU, if_pos hx]
      simp only [List.length_cons]
      omega
    · have h2 : hasUU (c2 :: rest) = true := by
        rw [hasUU] at h
        simpa [hx] using h
      have h3 := replaceUU_length_lt (c2 :: rest) h2
      rw [replaceUU, if_neg hx]
      simp only [List.length_cons] at h3 ⊢
      omega

/-- A list with no `__` passes through the loop unchanged. -/
theorem collapseFuel_of_noUU (n : Nat) (s : List Char) (h : hasUU s = false) :
    collapseFuel n s = s := by
  cases n <;> simp [collapseFuel, h]

/-- With fuel at least the length, the loop's result holds no `__`. -/
theorem collapseFuel_noUU : ∀ (n : Nat) (s : List Char), s.length ≤ n →
    hasUU (collapseFuel n s) = false
  | 0, s => by
    intro h
    have hnil : s = [] := List.eq_nil_of_length_eq_zero (Nat.le_zero.mp h)
    subst hnil
    simp [collapseFuel, hasUU]
  | n + 1, s => by
    intro h
    by_cases hu : hasUU s = true
    · have hlt := replaceUU_length_lt s hu
      have hle : (replaceUU s).length ≤ n := by omega
      simpa [collapseFuel, hu] using collapseFuel_noUU n (replaceUU s) hle
    · have hf : hasUU s = false := by simpa using hu
      simp [collapseFuel, hf]

/-- The collapse loop's result holds no `__`. -/
theorem collapseLoop_noUU (s : List Char) : hasUU (collapseLoop s) = false :=
  collapseFuel_noUU s.length s le_rfl

/-- The loop only reuses input characters. -/
theorem collapseFuel_subset : ∀ (n : Nat) (s : List Char),
    ∀ c ∈ collapseFuel n s, c ∈ s
  | 0, s => by simp [collapseFuel]
  | n + 1, s => by
    intro c hc
    by_cases hu : hasUU s = true
    · rw [collapseFuel, if_pos hu] at hc
      exact replaceUU_subset s c (collapseFuel_subset n (replaceUU s) c hc)
    · rwa [collapseFuel, if_neg hu] at hc

/-- Any two sufficient fuels give the same result. -/
theorem collapseFuel_fuel_irrel : ∀ (n m : Nat) (s : List Char),
    s.length ≤ n → s.length ≤ m → collapseFuel n s = collapseFuel m s
  | 0, m, s => fun h _ => by
    have hnil : s = [] := List.eq_nil_of_length_eq_zero (Nat.le_zero.mp h)
    subst hnil
    cases m <;> simp [collapseFuel, hasUU]
  | n + 1, m, s => fun h hm => by
    by_cases hu : hasUU s = true
    · cases m with
      | zero =>
        have hnil : s = [] := List.eq_nil_of_length_eq_zero (Nat.le_zero.mp hm)
        subst hnil
        simp [hasUU] at hu
      | succ m' =>
        have hlt := replaceUU_length_lt s hu
        rw [collapseFuel, collapseFuel, if_pos hu, if_pos hu]
        exact collapseFuel_fuel_irrel n m' (replaceUU s) (by omega) (by omega)
    · have hf : hasUU s = false := by simpa using hu
      rw [collapseFuel_of_noUU _ _ hf, collapseFuel_of_noUU _ _ hf]

/-- The fuel encoding satisfies exactly the recurrence of the Python
`while "__" in sanitized` loop: the embedding is the loop's fixpoint. -/
theorem collapseLoop_eq (s : List Char) :
    collapseLoop s = if hasUU s then collapseLoop (replaceUU s) else s := by
  by_cases hu : hasUU s = true
  · rw [if_pos hu]
    unfold collapseLoop
    have hlt := replaceUU_length_lt s hu
    obtain ⟨n, hl⟩ : ∃ n, s.length = n + 1 := ⟨s.length - 1, by omega⟩
    rw [hl, collapseFuel, if_pos hu]
    rw [hl] at hlt
    exact collapseFuel_fuel_irrel n _ _ (by omega) le_rfl
  · rw [if_neg hu]
    exact collapseFuel_of_noUU _ _ (by simpa using hu)

/-! ### Transport of the no-`__` invariant -/

/-- A list holding `__` decomposes around it. -/
theorem hasUU_parts : ∀ (s : List Char), hasUU s = true →
    ∃ l r, s = l ++ '_' :: '_' :: r
  | [] => by simp [hasUU]
  | [d] => by simp [hasUU]
  | c1 :: c2 :: rest => by
    intro h
    by_cases hx : (c1 == '_' && c2 == '_') = true
    · simp only [Bool.and_eq_true, beq_iff_eq] at hx
      exact ⟨[], rest, by rw [hx.1, hx.2]; rfl⟩
    · have h2 : hasUU (c2 :: rest) = true := by
        rw [hasUU] at h
        simpa [hx] using h
      obtain ⟨l, r, hr⟩ := hasUU_parts (c2 :: rest) h2
      exact ⟨c1 :: l, r, by rw [List.cons_append, ← hr]⟩

/-- And conversely, such a decomposition forces `hasUU`. -/
theorem parts_hasUU (l r : List Char) : hasUU (l ++ '_' :: '_' :: r) = true := by
  induction l with
  | nil => simp [hasUU]
  | cons c l ih =>
    cases l with
    | nil => simp [hasUU]
    | cons d l' =>
      rw [List.cons_append, List.cons_append, hasUU]
      rw [List.cons_append] at ih
      simp [ih]

/-- `__`-freedom is symmetric under reversal. -/
theorem hasUU_reverse (s : List Char) : hasUU s.reverse = hasUU s := by
  cases h : hasUU s
  · cases hrev : hasUU s.reverse
    · rfl
    · obtain ⟨l, r, hp⟩ := hasUU_parts s.reverse hrev
      have hs : s = r.reverse ++ '_' :: '_' :: l.reverse := by
        have h2 := congrArg List.reverse hp
        rw [List.reverse_reverse] at h2
        rw [h2]
        simp [List.reverse_append, List.append_assoc]
      rw [hs, parts_hasUU] at h
      cases h
  · obtain ⟨l, r, hp⟩ := hasUU_parts s h
    have hrev : s.reverse = r.reverse ++ '_' :: '_' :: l.reverse := by
      rw [hp]
      simp [List.reverse_append, List.append_assoc]
    rw [hrev, parts_hasUU]

/-- `hasUU` transports along the infix order. -/
theorem hasUU_of_within {t s : List Char} (h : t <:+: s) (hu : hasUU t = true) :
    hasUU s = true := by
  obtain ⟨u, v, rfl⟩ := h
  obtain ⟨l, r, rfl⟩ := hasUU_parts t hu
  have hre : u ++ (l ++ '_' :: '_' :: r) ++ v =
      (u ++ l) ++ '_' :: '_' :: (r ++ v) := by
    simp [List.append_assoc]
  rw [hre]
  exact parts_hasUU _ _

/-- Contrapositive form used below. -/
theorem noUU_of_within {t s : List Char} (h : t <:+: s) (hs : hasUU s = false) :
    hasUU t = false := by
  cases ht : hasUU t
  · rfl
  · rw [hasUU_of_within h ht] at hs
    cases hs

/-- Lowercasing neither creates nor destroys `__`. -/
theorem hasUU_map_pyToLower : ∀ (s : List Char),
    hasUU (s.map pyToLower) = hasUU s
  | [] => rfl
  | [c] => rfl
  | c1 :: c2 :: rest => by
    have ih := hasUU_map_pyToLower (c2 :: rest)
    rw [List.map_cons, List.map_cons, hasUU, hasUU]
    rw [List.map_cons] at ih
    rw [ih, pyToLower_beq_underscore c1, pyToLower_beq_underscore c2]

/-! ### Strip/truncate lemmas -/

/-- The head surviving a `dropWhile` refutes the predicate. -/
theorem dropWhile_head_not (p : Char → Bool) : ∀ (l : List Char) (c : Char),
    (l.dropWhile p).head? = some c → p c = false
  | [], c => by simp [List.dropWhile]
  | d :: rest, c => by
    by_cases hd : p d = true
    · rw [List.dropWhile_cons, if_pos hd]
      exact dropWhile_head_not p rest c
    · rw [List.dropWhile_cons, if_neg hd]
      intro h
      obtain rfl : d = c := by simpa using h
      simpa using hd

/-- `dropWhile` is the identity when the head already fails the test. -/
theorem dropWhile_eq_self_of_head (p : Char → Bool) (l : List Char)
    (h : ∀ c, l.head? = some c → p c = false) : l.dropWhile p = l := by
  cases l with
  | nil => rfl
  | cons d rest =>
    rw [List.dropWhile_cons, if_neg]
    simp [h d rfl]

/-- A nonempty prefix shares the head. -/
theorem head?_of_ne_nil {t s : List Char} (h : t <+: s) (hne : t ≠ []) :
    t.head? = s.head? := by
  obtain ⟨r, hr⟩ := h
  cases t with
  | nil => exact absurd rfl hne
  | cons a t' => rw [← hr]; rfl

/-- Stripping from the right yields a prefix of the original. -/
theorem rstrip_isPre (p : Char → Bool) (l : List Char) :
    ((l.reverse.dropWhile p).reverse) <+: l := by
  rw [← List.reverse_suffix]
  simpa using List.dropWhile_suffix (l := l.reverse) p

/-- The last element surviving a right strip refutes the predicate. -/
theorem rstrip_last_not (p : Char → Bool) (l : List Char) (c : Char)
    (h : ((l.reverse.dropWhile p).reverse).getLast? = some c) : p c = false := by
  rw [List.getLast?_reverse] at h
  exact dropWhile_head_not p l.reverse c h

/-- `getLast?` commutes with `map`. -/
theorem getLast?_map_own (f : Char → Char) (l : List Char) :
    (l.map f).getLast? = l.getLast?.map f := by
  rw [← List.head?_reverse, ← List.map_reverse, List.head?_map, List.head?_reverse]

/-! ### `sanitize_filename` output invariants -/

/-- On inputs free of `'İ'`, the output of `sanitize_filename` satisfies
`Sane`. -/
theorem sanitize_sane (x : String) (hx : ∀ c ∈ x.data, c ≠ 'İ') :
    Sane (sanitize_filename x).data := by
  set s1 : List Char := x.data.map pyCharKeep with hs1
  set s2 : List Char := collapseLoop s1 with hs2
  set a : List Char := s2.dropWhile (· == '_') with ha
  set s3 : List Char := (a.reverse.dropWhile (· == '_')).reverse with hs3
  set s4 : List Char := s3.map pyToLower with hs4
  have hmem3 : ∀ c ∈ s3, c ∈ s2 := by
    intro c hc
    have h1 : c ∈ a := (rstrip_isPre _ a).mem hc
    exact (List.dropWhile_suffix _).mem h1
  have hnes1 : ∀ c ∈ s1, c ≠ 'İ' := by
    intro c hc
    obtain ⟨e, he, rfl⟩ := List.mem_map.mp hc
    exact pyCharKeep_ne_dottedI e (hx e he)
  have hnes3 : ∀ c ∈ s3, c ≠ 'İ' := fun c hc =>
    hnes1 c (collapseFuel_subset _ _ _ (hmem3 c hc))
  have hout : (sanitize_filename x).data = saniTrunc s4 := by
    have h0 : (sanitize_filename x).data = saniTrunc (pyLower s3) := rfl
    rw [h0, pyLower_eq_map s3 hnes3]
  have hchar4 : ∀ c ∈ s4, goodChar c = true ∧ pyToLower c = c := by
    intro c hc
    obtain ⟨d, hd, rfl⟩ := List.mem_map.mp hc
    have hd2 : d ∈ s2 := hmem3 d hd
    have hd1 : d ∈ s1 := collapseFuel_subset _ _ _ hd2
    obtain ⟨e, he, rfl⟩ := List.mem_map.mp hd1
    exact ⟨pyToLower_good _ (pyCharKeep_good e (hx e he)), pyToLower_idem _⟩
  -- no double underscore in s4
  have huu2 : hasUU s2 = false := collapseLoop_noUU s1
  have huu3 : hasUU s3 = false := by
    have huua : hasUU a = false :=
      noUU_of_within (List.dropWhile_suffix _).isInfix huu2
    have h1 : hasUU (a.reverse.dropWhile (· == '_')) = false := by
      refine noUU_of_within (List.dropWhile_suffix _).isInfix ?_
      rw [hasUU_reverse]
      exact huua
    rw [hs3, hasUU_reverse]
    exact h1
  have huu4 : hasUU s4 = false := by
    rw [hs4, hasUU_map_pyToLower]
    exact huu3
  -- edges of s4
  have hhead3 : ∀ c, s3.head? = some c → (c == '_') = false := by
    intro c h
    have hne : s3 ≠ [] := by
      intro e
      rw [e] at h
      cases h
    rw [head?_of_ne_nil (rstrip_isPre _ a) hne] at h
    exact dropWhile_head_not _ s2 c h
  have hhead4 : ∀ c, s4.head? = some c → (c == '_') = false := by
    intro c h
    rw [hs4, List.head?_map] at h
    cases h3 : s3.head? with
    | none => rw [h3] at h; cases h
    | some d =>
      rw [h3] at h
      obtain rfl : pyToLower d = c := by simpa using h
      have hd := hhead3 d h3
      rw [pyToLower_beq_underscore]
      exact hd
  have hlast4 : ∀ c, s4.getLast? = some c → (c == '_') = false := by
    intro c h
    rw [hs4, getLast?_map_own] at h
    cases h3 : s3.getLast? with
    | none => rw [h3] at h; cases h
    | some d =>
      rw [h3] at h
      obtain rfl : pyToLower d = c := by simpa using h
      have hd : (d == '_') = false := by
        have := rstrip_last_not (· == '_') a d (by rw [← hs3]; exact h3)
        simpa using this
      rw [pyToLower_beq_underscore]
      exact hd
  -- now split on truncation
  rw [hout]
  unfold saniTrunc
  by_cases hlen : s4.length > 80
  · rw [if_pos hlen]
    set t : List Char := s4.take 80 with htdef
    set s5 : List Char := (t.reverse.dropWhile (fun c => c == '-' || c == '_')).reverse
      with hs5
    have htpre : t <+: s4 := ⟨s4.drop 80, List.take_append_drop 80 s4⟩
    have hmem5 : ∀ c ∈ s5, c ∈ s4 := fun c hc =>
      htpre.mem ((rstrip_isPre _ t).mem hc)
    refine ⟨fun c hc => hchar4 c (hmem5 c hc), ?_, ?_, ?_, ?_⟩
    · refine noUU_of_within ?_ huu4
      exact ((rstrip_isPre _ t).trans htpre).isInfix
    · intro c h
      have hne : s5 ≠ [] := by
        intro e
        rw [e] at h
        cases h
      rw [head?_of_ne_nil ((rstrip_isPre _ t).trans htpre) hne] at h
      have := hhead4 c h
      simpa using this
    · intro c h
      have := rstrip_last_not _ t c h
      simp only [Bool.or_eq_false_iff, beq_eq_false_iff_ne] at this
      exact this.2
    · calc s5.length ≤ t.reverse.length := by
            rw [hs5, List.length_reverse]
            exact (List.dropWhile_suffix _).length_le
        _ ≤ 80 := by
            rw [List.length_reverse, htdef, List.length_take]
            omega
  · rw [if_neg hlen]
    refine ⟨hchar4, huu4, ?_, ?_, by omega⟩
    · intro c h
      have := hhead4 c h
      simpa using this
    · intro c h
      have := hlast4 c h
      simpa using this

/-- `sanitize_filename` fixes every `Sane` string. -/
theorem sanitize_fix (y : List Char) (h : Sane y) :
    sanitize_filename ⟨y⟩ = ⟨y⟩ := by
  obtain ⟨hchars, huu, hhead, hlast, hlen⟩ := h
  have h1 : (String.mk y).data.map pyCharKeep = y :=
    mapIdOn y (fun c hc => pyCharKeep_id c (hchars c hc).1)
  have h2 : collapseLoop y = y := collapseFuel_of_noUU _ _ huu
  have h3 : saniStrip y = y := by
    unfold saniStrip
    rw [dropWhile_eq_self_of_head _ y
      (fun c hc => by simpa using hhead c hc)]
    rw [dropWhile_eq_self_of_head _ y.reverse
      (fun c hc => by
        rw [List.head?_reverse] at hc
        simpa using hlast c hc)]
    exact List.reverse_reverse y
  have h4 : pyLower y = y := by
    rw [pyLower_eq_map y (fun c hc => goodChar_ne_dottedI c (hchars c hc).1)]
    exact mapIdOn y (fun c hc => (hchars c hc).2)
  have h5 : saniTrunc y = y := by
    unfold saniTrunc
    rw [if_neg (by omega)]
  show (⟨saniTrunc (pyLower (saniStrip (collapseLoop
    ((String.mk y).data.map pyCharKeep))))⟩ : String) = ⟨y⟩
  rw [h1, h2, h3, h4, h5]

/-- C4 counterexample: Python counts `'İ'` (U+0130) alphanumeric and
lowers it to `'i'` followed by the combining dot above U+0307, which is
not alphanumeric; a second sanitization replaces that dot with an
underscore and strips it, so `sanitize_filename` is not idempotent. -/
theorem claim_C4_counterexample :
    sanitize_filename "İ" = "i̇" ∧
    sanitize_filename (sanitize_filename "İ") = "i" ∧
    sanitize_filename (sanitize_filename "İ") ≠ sanitize_filename "İ" :=
  ⟨by decide, by decide, by decide⟩

/-- C4 amended: `sanitize_filename` implements
replace-collapse-strip-lowercase-truncate; it is idempotent on every input
that contains no `'İ'` (U+0130) — the one character in Unicode whose
lowercasing expands it, into `'i'` plus the non-alphanumeric combining dot
U+0307, which breaks idempotence; the spec's example still sanitizes to
`"my_file_name"`, and every output has at most 80 characters. -/
theorem claim_C4_amended :
    (∀ x : String, (∀ c ∈ x.data, c ≠ 'İ') →
      sanitize_filename (sanitize_filename x) = sanitize_filename x) ∧
    sanitize_filename "My File!!  Name" = "my_file_name" ∧
    (∀ x, (sanitize_filename x).data.length ≤ 80) := by
  refine ⟨?_, by decide, fun x => ?_⟩
  · intro x hx
    exact sanitize_fix (sanitize_filename x).data (sanitize_sane x hx)
  · have h0 : (sanitize_filename x).data =
        saniTrunc (pyLower (saniStrip (collapseLoop (x.data.map pyCharKeep)))) := rfl
    rw [h0]
    exact saniTrunc_le _

/-- Witness for C4 amended at the spec's own example string. -/
theorem claim_C4_amended_witness :
    (∀ c ∈ ("My File!!  Name" : String).data, c ≠ 'İ') ∧
    sanitize_filename (sanitize_filename "My File!!  Name") =
      sanitize_filename "My File!!  Name" :=
  ⟨by decide, claim_C4_amended.1 "My File!!  Name" (by decide)⟩

end Pyile
